import Mathlib

/-!
Verification development for the RIFT pipeline simulation
(tokenizer → parser → AST coordinator → output renderer).

C strings are modelled as `List Char`; the nullable `ast_node_t*`
pointers become `Option AstNode`.  The POSIX regex collaborator
(`regcomp`/`regexec`, an external library, not part of this repository)
is modelled by a small ERE engine over the pattern constructs the
configured patterns use; as in `regexec`, a pattern is searched for
anywhere in the text (substring search), and `^`/`$` anchors restrict
the match to start/end of the text.  The character-class escapes
`\d`, `\w`, `\s` are given their documented meaning (digits, word
characters, whitespace).
-/

namespace RiftSim

/-- `token_type_t` from the source. -/
inductive TokenType where
  | identifier
  | number
  | operator
  | whitespace
  | unknown
deriving DecidableEq, Repr

/-- `ast_node_type_t` from the source. -/
inductive AstNodeType where
  | identifier
  | number
  | binaryOp
  | unaryOp
deriving DecidableEq, Repr

/-- `ast_node_t*` from the source: a (possibly `NULL`) pointer to a
node carrying a type tag, a value string and two child pointers.
The `NULL` pointer is the `null` constructor. -/
inductive AstNode where
  | null
  | mk (type : AstNodeType) (value : List Char)
       (left : AstNode) (right : AstNode)
deriving DecidableEq, Repr

/-- `rift_token_t` from the source. -/
structure RiftToken where
  type : TokenType
  value : List Char
  line : Nat
  column : Nat
deriving DecidableEq, Repr

-- ================================
-- Model of the external POSIX ERE matcher
-- ================================

/-- One item of a bracket expression: a single character or a range. -/
inductive ClsItem where
  | single (c : Char)
  | range (lo hi : Char)
deriving DecidableEq, Repr

/-- Regular expressions (the fragment the configured patterns use). -/
inductive Regex where
  | emp
  | eps
  | chr (c : Char)
  | any
  | cls (neg : Bool) (items : List ClsItem)
  | seq (a b : Regex)
  | alt (a b : Regex)
  | star (a : Regex)
deriving DecidableEq, Repr

/-- Does character `c` fall in one bracket-expression item? -/
def ClsItem.memB (c : Char) : ClsItem → Bool
  | .single d => c = d
  | .range lo hi => lo ≤ c ∧ c ≤ hi

/-- Membership of `c` in a bracket expression. -/
def clsMem (neg : Bool) (items : List ClsItem) (c : Char) : Bool :=
  if neg then !(items.any (ClsItem.memB c)) else items.any (ClsItem.memB c)

/-- Does the regex accept the empty string? -/
def Regex.nullable : Regex → Bool
  | .emp => false
  | .eps => true
  | .chr _ => false
  | .any => false
  | .cls _ _ => false
  | .seq a b => a.nullable && b.nullable
  | .alt a b => a.nullable || b.nullable
  | .star _ => true

/-- Brzozowski derivative of a regex with respect to a character. -/
def Regex.deriv : Regex → Char → Regex
  | .emp, _ => .emp
  | .eps, _ => .emp
  | .chr d, c => if c = d then .eps else .emp
  | .any, _ => .eps
  | .cls neg items, c => if clsMem neg items c then .eps else .emp
  | .seq a b, c =>
      if a.nullable then .alt (.seq (a.deriv c) b) (b.deriv c)
      else .seq (a.deriv c) b
  | .alt a b, c => .alt (a.deriv c) (b.deriv c)
  | .star a, c => .seq (a.deriv c) (.star a)

/-- The regex matches the whole character list. -/
def fullMatch : Regex → List Char → Bool
  | r, [] => r.nullable
  | r, c :: cs => fullMatch (r.deriv c) cs

/-- The regex matches some prefix of the character list. -/
def prefMatch : Regex → List Char → Bool
  | r, [] => r.nullable
  | r, c :: cs => r.nullable || prefMatch (r.deriv c) cs

/-- All suffixes of a character list, in order of start position
(the candidate match-start positions `regexec` searches). -/
def suffixes : List Char → List (List Char)
  | [] => [[]]
  | c :: cs => (c :: cs) :: suffixes cs

/-- The `\d` character class (digits). -/
def digitCls : Regex := .cls false [.range '0' '9']

/-- The `\w` character class (letters, digits, underscore). -/
def wordCls : Regex :=
  .cls false [.range 'a' 'z', .range 'A' 'Z', .range '0' '9', .single '_']

/-- The items of the `\s` character class (whitespace). -/
def spaceItems : List ClsItem :=
  [.single ' ', .single '\t', .single '\n', .single '\x0b',
   .single '\x0c', .single '\r']

/-- The `\s` character class. -/
def spaceCls : Regex := .cls false spaceItems

/-- Parse the items of a bracket expression, up to the closing `]`.
An unterminated bracket expression fails (as `regcomp` would). -/
def parseClsItems : List Char → Option (List ClsItem × List Char)
  | ']' :: rest => some ([], rest)
  | '\\' :: c :: rest =>
      match parseClsItems rest with
      | some (items, r) => some (.single c :: items, r)
      | none => none
  | a :: '-' :: b :: rest =>
      if b = ']' then some ([.single a, .single '-'], rest)
      else
        match parseClsItems rest with
        | some (items, r) => some (.range a b :: items, r)
        | none => none
  | c :: rest =>
      match parseClsItems rest with
      | some (items, r) => some (.single c :: items, r)
      | none => none
  | [] => none

/-- Parse a bracket expression after its opening `[`, handling a
leading `^` negation. -/
def parseCls (cs : List Char) : Option (Regex × List Char) :=
  match cs with
  | '^' :: rest =>
      match parseClsItems rest with
      | some (items, r) => some (.cls true items, r)
      | none => none
  | _ =>
      match parseClsItems cs with
      | some (items, r) => some (.cls false items, r)
      | none => none

/-- Parse one atom of the pattern: an escape, a bracket expression,
`.`, or a literal character.  Constructs outside the modelled fragment
are rejected (the model then treats the pattern as failing to compile,
which `matches_pattern` maps to `false`). -/
def parseAtom : List Char → Option (Regex × List Char)
  | [] => none
  | '\\' :: c :: rest =>
      if c = 'd' then some (digitCls, rest)
      else if c = 'w' then some (wordCls, rest)
      else if c = 's' then some (spaceCls, rest)
      else some (.chr c, rest)
  | ['\\'] => none
  | '[' :: rest => parseCls rest
  | '.' :: rest => some (.any, rest)
  | c :: rest =>
      if c = '*' ∨ c = '+' ∨ c = '?' ∨ c = '^' ∨ c = '$' ∨
         c = '(' ∨ c = ')' ∨ c = '|' ∨ c = ']' then none
      else some (.chr c, rest)

/-- Parse a sequence of atoms with postfix `*`, `+`, `?`.  `fuel`
bounds the recursion (each step consumes at least one character). -/
def parseSeqAux : Nat → List Char → Regex → Option Regex
  | _, [], acc => some acc
  | 0, _ :: _, _ => none
  | fuel + 1, cs, acc =>
      match parseAtom cs with
      | none => none
      | some (a, rest) =>
          match rest with
          | '*' :: r2 => parseSeqAux fuel r2 (.seq acc (.star a))
          | '+' :: r2 => parseSeqAux fuel r2 (.seq acc (.seq a (.star a)))
          | '?' :: r2 => parseSeqAux fuel r2 (.seq acc (.alt a .eps))
          | _ => parseSeqAux fuel rest (.seq acc a)

/-- Parse a whole pattern string: a leading `^` anchor, a trailing `$`
anchor, and the atom sequence between them.  Returns
`(startAnchored, core, endAnchored)`. -/
def parseRegexAnchored (p : List Char) : Option (Bool × Regex × Bool) :=
  let (sA, p1) :=
    match p with
    | '^' :: r => (true, r)
    | _ => (false, p)
  let (eA, p2) :=
    match p1.reverse with
    | '$' :: mid => (true, mid.reverse)
    | _ => (false, p1)
  match parseSeqAux (p2.length + 1) p2 .eps with
  | some r => some (sA, r, eA)
  | none => none

/-- Model of `matches_pattern` (`regcomp` + `regexec`): a pattern that
fails to compile matches nothing; otherwise the pattern is searched
for anywhere in the text, with anchors restricting the candidate
start position and the match end. -/
def matchesPattern (pat text : List Char) : Bool :=
  match parseRegexAnchored pat with
  | none => false
  | some (s, r, e) =>
      let cands := if s then [text] else suffixes text
      cands.any (fun t => if e then fullMatch r t else prefMatch r t)

-- ================================
-- Governance (rift_load_governance / rift_get_config_value)
-- ================================

/-- `rift_config_entry_t` from the source. -/
structure ConfigEntry where
  pattern : List Char
  intention : List Char
  sp_alignment : List Char
deriving DecidableEq, Repr

/-- `rift_governance_t` from the source (the `entries` array in
insertion order; `count`/`capacity` bookkeeping is the list length). -/
structure Governance where
  entries : List ConfigEntry
deriving DecidableEq, Repr

/-- `rift_get_config_value`: scan the entries from index `0` upward
and return the pattern of the first entry whose intention equals the
key; `NULL` (here `none`) if no entry matches. -/
def riftGetConfigValue (gov : Governance) (key : List Char) : Option (List Char) :=
  go gov.entries
where
  go : List ConfigEntry → Option (List Char)
    | [] => none
    | e :: rest => if e.intention = key then some e.pattern else go rest

/-- The three entries loaded by `rift_load_governance`. -/
def loadedGovernance : Governance :=
  { entries :=
      [ { pattern := "^[a-zA-Z_]\\w*$".toList,
          intention := "IDENTIFIER_RECOGNITION".toList,
          sp_alignment := "STAGE_0_TOKENIZER".toList },
        { pattern := "^\\d+$".toList,
          intention := "NUMBER_RECOGNITION".toList,
          sp_alignment := "STAGE_0_TOKENIZER".toList },
        { pattern := "^[+\\-*/]$".toList,
          intention := "OPERATOR_RECOGNITION".toList,
          sp_alignment := "STAGE_0_TOKENIZER".toList } ] }

-- ================================
-- RIFT-0: tokenizer (rift_tokenizer_create / rift_tokenize)
-- ================================

/-- The four DFA states configured by `rift_tokenizer_create`, in
array order: `(pattern, token type)` pairs.  States `0`–`2` take
their patterns from the governance entries; state `3` is the
whitespace pattern added directly. -/
def pocStates : List (List Char × TokenType) :=
  [ ("^[a-zA-Z_]\\w*$".toList, .identifier),
    ("^\\d+$".toList, .number),
    ("^[+\\-*/]$".toList, .operator),
    ("^\\s+$".toList, .whitespace) ]

/-- The classification loop of `rift_tokenize`: the token type starts
as `TOKEN_UNKNOWN`, and the first state whose pattern matches sets the
type and breaks out of the loop. -/
def classifyPoc : List (List Char × TokenType) → List Char → TokenType
  | [], _ => .unknown
  | (p, ty) :: rest, lex =>
      if matchesPattern p lex then ty else classifyPoc rest lex

/-- `strtok(input, " ")` loop, accumulating the current chunk in
reverse: maximal nonempty runs of non-space characters, in order. -/
def strtokSplitAux : List Char → List Char → List (List Char)
  | [], acc => if acc = [] then [] else [acc.reverse]
  | c :: rest, acc =>
      if c = ' ' then
        if acc = [] then strtokSplitAux rest []
        else acc.reverse :: strtokSplitAux rest []
      else strtokSplitAux rest (c :: acc)

/-- All chunks `strtok` produces from the input when splitting on
the space character. -/
def strtokSplit (cs : List Char) : List (List Char) :=
  strtokSplitAux cs []

/-- The emission loop of `rift_tokenize` over the `strtok` chunks:
`n` is the current `stream->count`.  A chunk passes the
`strlen(token_str) > 0 && token_str[0] != ' '` guard, is classified
by the DFA states, and gets `line = 1` and
`column = stream->count` after the increment. -/
def tokenizeChunks : List (List Char) → Nat → List RiftToken
  | [], _ => []
  | w :: ws, n =>
      if w.length > 0 ∧ w.head? ≠ some ' ' then
        { type := classifyPoc pocStates w, value := w,
          line := 1, column := n + 1 } :: tokenizeChunks ws (n + 1)
      else tokenizeChunks ws n

/-- `rift_tokenize`: split the input on spaces with `strtok` and emit
one classified token per chunk. -/
def riftTokenize (input : List Char) : List RiftToken :=
  tokenizeChunks (strtokSplit input) 0

-- ================================
-- Stage-bound classifier (rift_stage0_process)
-- ================================

/-- One configured rule of the stage-bound tokenizer: a pattern, the
token type its array index maps to, and its priority. -/
structure StageRule where
  pattern : List Char
  kind : TokenType
  priority : Int
deriving DecidableEq, Repr

/-- The classification loop of `rift_stage0_process`: the state is
`(token->type, token->priority, highest_priority)`, initialised to
`(TOKEN_UNKNOWN, 0, -1)`; every rule whose pattern matches and whose
priority is strictly greater than `highest_priority` overwrites all
three. -/
def classifyStageLoop (lex : List Char) :
    List StageRule → TokenType × Int × Int → TokenType × Int × Int
  | [], st => st
  | r :: rs, (ty, tp, hp) =>
      if matchesPattern r.pattern lex ∧ r.priority > hp then
        classifyStageLoop lex rs (r.kind, r.priority, r.priority)
      else
        classifyStageLoop lex rs (ty, tp, hp)

/-- The classification of one lexeme by `rift_stage0_process`:
the final `(token->type, token->priority)`. -/
def classifyStage (rules : List StageRule) (lex : List Char) : TokenType × Int :=
  let (ty, tp, _) := classifyStageLoop lex rules (.unknown, 0, -1)
  (ty, tp)

/-- Modelled from the spec: "Among all rules whose pattern matches,
select the one with the strictly greatest priority; ties are resolved
by first rule encountered in the provided rule order."  `bestOf`
returns the earliest rule attaining the greatest priority: a later
rule replaces the current best only when its priority is strictly
greater. -/
def bestOf : List StageRule → Option StageRule
  | [] => none
  | r :: rs =>
      match bestOf rs with
      | none => some r
      | some b => if b.priority > r.priority then some b else some r

/-- Modelled from the spec: the classification contract of §4.2 —
the earliest matching rule of greatest priority, or
`(Unknown, 0)` when no rule matches. -/
def classifySpecSelect (rules : List StageRule) (lex : List Char) : TokenType × Int :=
  match bestOf (rules.filter (fun r => matchesPattern r.pattern lex)) with
  | none => (.unknown, 0)
  | some b => (b.kind, b.priority)

-- ================================
-- RIFT-1: parser
-- ================================

/-- `current_token`: the token at the cursor, or `NULL` past the
end. -/
def currentToken (ts : List RiftToken) (p : Nat) : Option RiftToken :=
  ts[p]?

/-- `advance_token`: move the cursor forward, a no-op past the end. -/
def advanceToken (ts : List RiftToken) (p : Nat) : Nat :=
  if p < ts.length then p + 1 else p

/-- `parse_factor`: an IDENTIFIER or NUMBER token becomes a leaf node
and advances the cursor; anything else (or an exhausted stream)
yields `NULL` and leaves the cursor in place. -/
def parseFactor (ts : List RiftToken) (p : Nat) : AstNode × Nat :=
  match currentToken ts p with
  | none => (.null, p)
  | some t =>
      if t.type = .identifier then
        (.mk .identifier t.value .null .null, advanceToken ts p)
      else if t.type = .number then
        (.mk .number t.value .null .null, advanceToken ts p)
      else (.null, p)

/-- The `while` loop of `parse_term`: as long as the current token is
a `*` or `/` operator, consume it, parse a factor, and fold the
previous result into the left child of a new binary node.  Each
iteration advances the cursor, so `fuel` of at least the stream
length never runs out. -/
def parseTermLoop (ts : List RiftToken) :
    Nat → AstNode → Nat → AstNode × Nat
  | 0, left, p => (left, p)
  | fuel + 1, left, p =>
      match currentToken ts p with
      | none => (left, p)
      | some t =>
          if t.type = .operator ∧ (t.value = ['*'] ∨ t.value = ['/']) then
            let p1 := advanceToken ts p
            let (right, p2) := parseFactor ts p1
            parseTermLoop ts fuel (.mk .binaryOp t.value left right) p2
          else (left, p)

/-- `parse_term`: a factor followed by the `*`/`/` loop. -/
def parseTerm (ts : List RiftToken) (fuel : Nat) (p : Nat) :
    AstNode × Nat :=
  let (left, p1) := parseFactor ts p
  parseTermLoop ts fuel left p1

/-- The `while` loop of `parse_expression`: same shape as the term
loop, at the `+`/`-` precedence level, with terms as operands. -/
def parseExprLoop (ts : List RiftToken) :
    Nat → AstNode → Nat → AstNode × Nat
  | 0, left, p => (left, p)
  | fuel + 1, left, p =>
      match currentToken ts p with
      | none => (left, p)
      | some t =>
          if t.type = .operator ∧ (t.value = ['+'] ∨ t.value = ['-']) then
            let p1 := advanceToken ts p
            let (right, p2) := parseTerm ts fuel p1
            parseExprLoop ts fuel (.mk .binaryOp t.value left right) p2
          else (left, p)

/-- `parse_expression`: a term followed by the `+`/`-` loop. -/
def parseExpression (ts : List RiftToken) (fuel : Nat) (p : Nat) :
    AstNode × Nat :=
  let (left, p1) := parseTerm ts fuel p
  parseExprLoop ts fuel left p1

/-- `rift_parse`: reset the cursor to `0` and parse one expression
(the `NULL` result of an empty or unparsable stream is `.null`).
The fuel `ts.length + 1` bounds every loop, since each loop iteration
consumes at least the operator token. -/
def riftParse (ts : List RiftToken) : AstNode :=
  (parseExpression ts (ts.length + 1) 0).1

-- ================================
-- RIFT-2: AST coordinator
-- ================================

/-- `count_ast_nodes`: a null pointer counts `0`, a node counts `1`
plus the counts of its children. -/
def countAstNodes : AstNode → Nat
  | .null => 0
  | .mk _ _ l r => 1 + countAstNodes l + countAstNodes r

/-- `rift_ast_coordinator_t` (the governance pointer is omitted;
`root` is not initialised by `rift_ast_coordinator_create` and is
modelled as `null` until `rift_coordinate_ast` assigns it). -/
structure AstCoordinator where
  root : AstNode
  node_count : Nat
  optimization_passes : Nat

/-- `rift_ast_coordinator_create`. -/
def riftAstCoordinatorCreate : AstCoordinator :=
  { root := .null, node_count := 0, optimization_passes := 1 }

/-- `rift_coordinate_ast`: record the root and its node count in the
coordinator and return the same AST. -/
def riftCoordinateAst (c : AstCoordinator) (ast : AstNode) :
    AstCoordinator × AstNode :=
  ({ c with root := ast, node_count := countAstNodes ast }, ast)

-- ================================
-- RIFT-3: output renderer
-- ================================

/-- The indentation printed by the `for` loops of
`print_ast_recursive`: two spaces per level. -/
def indentChars : Nat → List Char
  | 0 => []
  | n + 1 => ' ' :: ' ' :: indentChars n

/-- `print_ast_recursive`: a null node prints nothing; otherwise the
indentation, then the variant's line(s); a binary node prints its
children one level deeper and closes with `)` at its own
indentation.  The `default` branch of the `switch` prints
`(Unknown)`. -/
def printAstRecursive : AstNode → Nat → List Char
  | .null, _ => []
  | .mk ty v l r, ind =>
      indentChars ind ++
        (match ty with
         | .identifier => "(Identifier ".toList ++ v ++ ")\n".toList
         | .number => "(Number ".toList ++ v ++ ")\n".toList
         | .binaryOp =>
             "(BinOp ".toList ++ v ++ "\n".toList ++
             printAstRecursive l (ind + 1) ++
             printAstRecursive r (ind + 1) ++
             indentChars ind ++ ")\n".toList
         | .unaryOp => "(Unknown)\n".toList)

/-- The text printed by `rift_generate_output`: the `(AST ... )`
envelope around the tree rendered at indentation level `1`. -/
def riftGenerateOutput (ast : AstNode) : List Char :=
  "(AST\n".toList ++ printAstRecursive ast 1 ++ ")\n".toList

-- ================================
-- Helper lemmas
-- ================================

/-- A sequence whose first component is the empty language matches
nothing. -/
theorem fullMatch_seq_emp (cs : List Char) :
    ∀ r : Regex, fullMatch (.seq .emp r) cs = false := by
  induction cs with
  | nil => intro r; rfl
  | cons c cs ih =>
      intro r
      simp only [fullMatch, Regex.deriv, Regex.nullable, Bool.false_eq_true,
        if_false]
      exact ih r

/-- Matching an alternative is the disjunction of the matches. -/
theorem fullMatch_alt (cs : List Char) :
    ∀ a b : Regex, fullMatch (.alt a b) cs = (fullMatch a cs || fullMatch b cs) := by
  induction cs with
  | nil => intro a b; rfl
  | cons c cs ih =>
      intro a b
      simp only [fullMatch, Regex.deriv]
      exact ih _ _

/-- The whitespace character predicate, written out:
exactly the membership test of the `\s` bracket items. -/
def isWsChar (c : Char) : Bool :=
  c = ' ' || c = '\t' || c = '\n' || c = '\x0b' || c = '\x0c' || c = '\r'

theorem clsMem_spaceItems (c : Char) :
    clsMem false spaceItems c = isWsChar c := by
  simp [clsMem, spaceItems, ClsItem.memB, isWsChar, List.any_cons,
    Bool.or_assoc]

/-- The core regex of the configured pattern `^\s+$`. -/
def wsCore : Regex := .seq .eps (.seq spaceCls (.star spaceCls))

theorem parse_wsPattern :
    parseRegexAnchored ("^\\s+$".toList) = some (true, wsCore, true) := rfl

/-- A lexeme whose first character is not whitespace never matches
the configured whitespace pattern `^\s+$`. -/
theorem wsPattern_no_match (c : Char) (cs : List Char)
    (h : isWsChar c = false) :
    matchesPattern ("^\\s+$".toList) (c :: cs) = false := by
  have hstep : fullMatch wsCore (c :: cs) = false := by
    have hd : wsCore.deriv c =
        .alt (.seq .emp (.seq spaceCls (.star spaceCls)))
             (.seq .emp (.star spaceCls)) := by
      simp [wsCore, Regex.deriv, Regex.nullable, spaceCls, clsMem_spaceItems, h]
    simp only [fullMatch, hd, fullMatch_alt, fullMatch_seq_emp,
      Bool.or_self]
  simp only [matchesPattern, parse_wsPattern, List.any, hstep, Bool.false_or,
    if_true, Bool.or_false]

/-- A lexeme that cannot match the whitespace pattern is never
classified `TOKEN_WHITESPACE` by the tokenizer's state scan. -/
theorem classifyPoc_ne_whitespace (w : List Char)
    (h : matchesPattern ("^\\s+$".toList) w = false) :
    classifyPoc pocStates w ≠ TokenType.whitespace := by
  simp only [pocStates, classifyPoc, h, Bool.false_eq_true, if_false]
  split_ifs <;> decide

/-- Splitting an all-space input leaves only the pending chunk. -/
theorem strtokSplitAux_all_space :
    ∀ (cs acc : List Char), (∀ c ∈ cs, c = ' ') →
      strtokSplitAux cs acc = if acc = [] then [] else [acc.reverse] := by
  intro cs
  induction cs with
  | nil => intro acc _; rfl
  | cons c rest ih =>
      intro acc h
      have hc : c = ' ' := h c (List.mem_cons_self c rest)
      have hrest : ∀ x ∈ rest, x = ' ' :=
        fun x hx => h x (List.mem_cons_of_mem c hx)
      by_cases ha : acc = []
      · simp [strtokSplitAux, hc, ha, ih [] hrest]
      · simp [strtokSplitAux, hc, ha, ih [] hrest]

/-- Every chunk `strtok` produces is nonempty, and when every input
character is either a space or a non-whitespace character (and the
pending chunk holds only non-whitespace characters), every chunk
character is non-whitespace. -/
theorem strtokSplitAux_chunks :
    ∀ (cs acc : List Char),
      (∀ c ∈ cs, c = ' ' ∨ isWsChar c = false) →
      (∀ c ∈ acc, isWsChar c = false) →
      ∀ w ∈ strtokSplitAux cs acc,
        w ≠ [] ∧ ∀ c ∈ w, isWsChar c = false := by
  intro cs
  induction cs with
  | nil =>
      intro acc _ hacc w hw
      by_cases ha : acc = []
      · simp [strtokSplitAux, ha] at hw
      · simp only [strtokSplitAux, ha, if_false, List.mem_singleton] at hw
        subst hw
        refine ⟨by simpa using ha, fun c hc => hacc c ?_⟩
        simpa using hc
  | cons c rest ih =>
      intro acc h hacc w hw
      have hrest : ∀ x ∈ rest, x = ' ' ∨ isWsChar x = false :=
        fun x hx => h x (List.mem_cons_of_mem c hx)
      by_cases hc : c = ' '
      · by_cases ha : acc = []
        · simp only [strtokSplitAux, hc, ha, if_true] at hw
          exact ih [] hrest (by simp) w hw
        · simp only [strtokSplitAux, hc, ha, if_true, if_false,
            List.mem_cons] at hw
          rcases hw with rfl | hw
          · refine ⟨by simpa using ha, fun x hx => hacc x ?_⟩
            simpa using hx
          · exact ih [] hrest (by simp) w hw
      · have hcw : isWsChar c = false := by
          rcases h c (List.mem_cons_self c rest) with h' | h'
          · exact absurd h' hc
          · exact h'
        simp only [strtokSplitAux, hc, if_false] at hw
        refine ih (c :: acc) hrest ?_ w hw
        intro x hx
        rcases List.mem_cons.mp hx with rfl | hx
        · exact hcw
        · exact hacc x hx

/-- Over chunks that pass the emission guard, the tokenizer emits one
token per chunk, in order, each carrying the chunk as its value and
its classification as its type. -/
theorem tokenizeChunks_spec :
    ∀ (ws : List (List Char)) (n : Nat),
      (∀ w ∈ ws, w ≠ [] ∧ w.head? ≠ some ' ') →
      (tokenizeChunks ws n).map RiftToken.value = ws ∧
      ∀ t ∈ tokenizeChunks ws n, t.type = classifyPoc pocStates t.value := by
  intro ws
  induction ws with
  | nil => intro n _; exact ⟨rfl, by simp [tokenizeChunks]⟩
  | cons w ws ih =>
      intro n h
      have hw := h w (List.mem_cons_self w ws)
      have hws : ∀ x ∈ ws, x ≠ [] ∧ x.head? ≠ some ' ' :=
        fun x hx => h x (List.mem_cons_of_mem w hx)
      have hguard : w.length > 0 ∧ w.head? ≠ some ' ' := by
        refine ⟨?_, hw.2⟩
        cases w with
        | nil => exact absurd rfl hw.1
        | cons a as => simp
      obtain ⟨ih1, ih2⟩ := ih (n + 1) hws
      have hre : tokenizeChunks (w :: ws) n =
          { type := classifyPoc pocStates w, value := w,
            line := 1, column := n + 1 } :: tokenizeChunks ws (n + 1) := by
        simp only [tokenizeChunks]
        rw [if_pos hguard]
      rw [hre]
      constructor
      · simp [ih1]
      · intro t ht
        rcases List.mem_cons.mp ht with rfl | ht
        · rfl
        · exact ih2 t ht

/-- The tokenizer's classification scan picks the first matching
state, in state order, defaulting to `TOKEN_UNKNOWN`. -/
theorem classifyPoc_eq_find :
    ∀ (states : List (List Char × TokenType)) (lex : List Char),
      classifyPoc states lex =
        (match states.find? (fun s => matchesPattern s.1 lex) with
         | some s => s.2
         | none => TokenType.unknown) := by
  intro states
  induction states with
  | nil => intro lex; rfl
  | cons s rest ih =>
      intro lex
      obtain ⟨p, ty⟩ := s
      by_cases m : matchesPattern p lex
      · simp [classifyPoc, List.find?, m]
      · simp [classifyPoc, List.find?, m, ih lex]

/-- `bestOf` only selects a rule of its list. -/
theorem bestOf_mem : ∀ (l : List StageRule) (b : StageRule),
    bestOf l = some b → b ∈ l := by
  intro l
  induction l with
  | nil => intro b h; simp [bestOf] at h
  | cons r rs ih =>
      intro b h
      cases hb : bestOf rs with
      | none =>
          simp only [bestOf, hb] at h
          obtain rfl : r = b := Option.some.inj h
          exact List.mem_cons_self r rs
      | some b' =>
          simp only [bestOf, hb] at h
          by_cases hp : b'.priority > r.priority
          · rw [if_pos hp] at h
            obtain rfl : b' = b := Option.some.inj h
            exact List.mem_cons_of_mem r (ih b' hb)
          · rw [if_neg hp] at h
            obtain rfl : r = b := Option.some.inj h
            exact List.mem_cons_self r rs

/-- The stage-bound classification loop, characterised against the
spec-side selection: starting from state `(ty, tp, hp)`, the loop
leaves the state unchanged unless some rule matches and the best
matching rule's priority exceeds `hp`, in which case that rule's kind
and priority are installed. -/
theorem classifyStageLoop_bestOf (lex : List Char) :
    ∀ (rules : List StageRule) (ty : TokenType) (tp hp : Int),
      classifyStageLoop lex rules (ty, tp, hp) =
        (match bestOf (rules.filter fun r => matchesPattern r.pattern lex) with
         | none => (ty, tp, hp)
         | some b =>
             if b.priority > hp then (b.kind, b.priority, b.priority)
             else (ty, tp, hp)) := by
  intro rules
  induction rules with
  | nil => intro ty tp hp; rfl
  | cons r rs ih =>
      intro ty tp hp
      by_cases m : matchesPattern r.pattern lex
      · by_cases h1 : r.priority > hp
        · simp only [classifyStageLoop, m, h1, and_self, if_true,
            List.filter_cons, ih, bestOf]
          cases hb : bestOf (rs.filter fun x => matchesPattern x.pattern lex) with
          | none => simp [h1]
          | some b =>
              by_cases h2 : b.priority > r.priority
              · have h3 : b.priority > hp := lt_trans h1 h2
                simp [h2, h3, h1]
              · simp [h2, h1]
        · simp only [classifyStageLoop, m, h1, and_false, true_and,
            Bool.true_eq_false, if_false, List.filter_cons, ih, bestOf,
            if_true]
          cases hb : bestOf (rs.filter fun x => matchesPattern x.pattern lex) with
          | none => simp [h1]
          | some b =>
              by_cases h2 : b.priority > r.priority
              · simp [h2]
              · have h3 : ¬ b.priority > hp := by omega
                simp [h2, h1, h3]
      · simp [classifyStageLoop, m, List.filter_cons, ih]

-- ================================
-- Concrete fixtures
-- ================================

/-- The token stream of the pipeline's demo input `"x + 2 * y"`. -/
def exampleTokens : List RiftToken :=
  [ { type := .identifier, value := ['x'], line := 1, column := 1 },
    { type := .operator, value := ['+'], line := 1, column := 2 },
    { type := .number, value := ['2'], line := 1, column := 3 },
    { type := .operator, value := ['*'], line := 1, column := 4 },
    { type := .identifier, value := ['y'], line := 1, column := 5 } ]

/-- The AST the parser builds for `"x + 2 * y"`. -/
def exampleAst : AstNode :=
  .mk .binaryOp ['+']
    (.mk .identifier ['x'] .null .null)
    (.mk .binaryOp ['*']
      (.mk .number ['2'] .null .null)
      (.mk .identifier ['y'] .null .null))

/-- The rule list of the spec's §8 classification example:
`[("^[0-9]+$", Number, 90), ("^.$", Unknown, 95)]`. -/
def c1ExampleRules : List StageRule :=
  [ { pattern := "^[0-9]+$".toList, kind := .number, priority := 90 },
    { pattern := "^.$".toList, kind := .unknown, priority := 95 } ]

/-- The byte sequence of the spec's §8 rendering example. -/
def c8Expected : List Char :=
  ("(AST\n  (BinOp +\n    (Identifier x)\n    (BinOp *\n      (Number 2)\n" ++
   "      (Identifier y)\n    )\n  )\n)\n").toList

-- ================================
-- Claims
-- ================================

/-- C2: tokenizing the input `"x + 2 * y"` yields the stream
(Identifier x, Operator +, Number 2, Operator *, Identifier y);
parsing that stream yields the root
`BinaryOp("+", Identifier("x"), BinaryOp("*", Number("2"),
Identifier("y")))` — multiplication binds tighter than addition —
and the coordinator's node count for that tree (1 plus the recursive
counts of the children, an absent child counting 0) equals 5. -/
theorem C2_theorem :
    riftTokenize ("x + 2 * y".toList) = exampleTokens ∧
    riftParse exampleTokens = exampleAst ∧
    (riftCoordinateAst riftAstCoordinatorCreate exampleAst).1.node_count = 5 := by
  refine ⟨rfl, rfl, ?_⟩
  rfl

/-- C3: the parser is left-associative at both precedence levels:
for any operand values and any pair of operators drawn from the same
precedence level (`+`/`-`, or `*`/`/`), parsing
`v1 op1 v2 op2 v3` folds the previous result into the left child of
the new BinaryOp node, yielding `((v1 op1 v2) op2 v3)`; the
left-nested tree is never the right-nested one. -/
theorem C3_theorem :
    (∀ o1 o2 v1 v2 v3 : List Char,
        o1 = ['+'] ∨ o1 = ['-'] → o2 = ['+'] ∨ o2 = ['-'] →
        riftParse [⟨.identifier, v1, 1, 1⟩, ⟨.operator, o1, 1, 2⟩,
                   ⟨.identifier, v2, 1, 3⟩, ⟨.operator, o2, 1, 4⟩,
                   ⟨.identifier, v3, 1, 5⟩] =
          .mk .binaryOp o2
            (.mk .binaryOp o1
              (.mk .identifier v1 .null .null)
              (.mk .identifier v2 .null .null))
            (.mk .identifier v3 .null .null)) ∧
    (∀ o1 o2 v1 v2 v3 : List Char,
        o1 = ['*'] ∨ o1 = ['/'] → o2 = ['*'] ∨ o2 = ['/'] →
        riftParse [⟨.identifier, v1, 1, 1⟩, ⟨.operator, o1, 1, 2⟩,
                   ⟨.identifier, v2, 1, 3⟩, ⟨.operator, o2, 1, 4⟩,
                   ⟨.identifier, v3, 1, 5⟩] =
          .mk .binaryOp o2
            (.mk .binaryOp o1
              (.mk .identifier v1 .null .null)
              (.mk .identifier v2 .null .null))
            (.mk .identifier v3 .null .null)) ∧
    (∀ op v1 v2 v3 : List Char,
        (AstNode.mk .binaryOp op
          (.mk .binaryOp op
            (.mk .identifier v1 .null .null)
            (.mk .identifier v2 .null .null))
          (.mk .identifier v3 .null .null)) ≠
        (AstNode.mk .binaryOp op
          (.mk .identifier v1 .null .null)
          (.mk .binaryOp op
            (.mk .identifier v2 .null .null)
            (.mk .identifier v3 .null .null)))) := by
  refine ⟨?_, ?_, ?_⟩
  · intro o1 o2 v1 v2 v3 h1 h2
    rcases h1 with rfl | rfl <;> rcases h2 with rfl | rfl <;> rfl
  · intro o1 o2 v1 v2 v3 h1 h2
    rcases h1 with rfl | rfl <;> rcases h2 with rfl | rfl <;> rfl
  · intro op v1 v2 v3 h
    injection h with ht hv hl hr
    injection hl with hlt
    exact absurd hlt (by decide)

/-- C3 witness: the concrete instance for the stream of
`"a - b - c"`. -/
theorem C3_witness :
    ((['-'] : List Char) = ['+'] ∨ (['-'] : List Char) = ['-']) ∧
    riftParse [⟨.identifier, ['a'], 1, 1⟩, ⟨.operator, ['-'], 1, 2⟩,
               ⟨.identifier, ['b'], 1, 3⟩, ⟨.operator, ['-'], 1, 4⟩,
               ⟨.identifier, ['c'], 1, 5⟩] =
      .mk .binaryOp ['-']
        (.mk .binaryOp ['-']
          (.mk .identifier ['a'] .null .null)
          (.mk .identifier ['b'] .null .null))
        (.mk .identifier ['c'] .null .null) :=
  ⟨Or.inr rfl,
   C3_theorem.1 ['-'] ['-'] ['a'] ['b'] ['c'] (Or.inr rfl) (Or.inr rfl)⟩

/-- C8: the renderer produces the canonical nested form —
`Identifier(v)` as `(Identifier v)`, `Number(v)` as `(Number v)`,
`BinaryOp(op, l, r)` as `(BinOp op` followed by the children one
level deeper and a closing `)` at the parent's indentation, two
spaces per level, wrapped in an `(AST ... )` envelope — and for the
tree of `"x + 2 * y"` yields exactly the spec's §8 byte sequence. -/
theorem C8_theorem :
    riftGenerateOutput exampleAst = c8Expected ∧
    (∀ (v : List Char) (ind : Nat),
        printAstRecursive (.mk .identifier v .null .null) ind =
          indentChars ind ++ ("(Identifier ".toList ++ v ++ ")\n".toList)) ∧
    (∀ (v : List Char) (ind : Nat),
        printAstRecursive (.mk .number v .null .null) ind =
          indentChars ind ++ ("(Number ".toList ++ v ++ ")\n".toList)) ∧
    (∀ (op : List Char) (l r : AstNode) (ind : Nat),
        printAstRecursive (.mk .binaryOp op l r) ind =
          indentChars ind ++ ("(BinOp ".toList ++ op ++ "\n".toList ++
            printAstRecursive l (ind + 1) ++ printAstRecursive r (ind + 1) ++
            indentChars ind ++ ")\n".toList)) := by
  refine ⟨?_, ?_, ?_, ?_⟩
  · rfl
  · intro v ind; rfl
  · intro v ind; rfl
  · intro op l r ind; rfl

/-- C9: coordination returns the very same root it was given and
leaves the tree unchanged; only the coordinator's `root` and
`node_count` bookkeeping fields are written, and the pass selection
(`optimization_passes`) keeps its prior value. -/
theorem C9_theorem :
    ∀ (c : AstCoordinator) (ast : AstNode),
      riftCoordinateAst c ast =
        ({ root := ast, node_count := countAstNodes ast,
           optimization_passes := c.optimization_passes }, ast) :=
  fun _ _ => rfl

/-- C10: a token stream consisting of exactly one Operator token with
value `+` or `-` parses to a BinaryOp node carrying that operator
with both children absent — not an absent result and not a
failure. -/
theorem C10_theorem :
    ∀ (v : List Char) (l c : Nat), v = ['+'] ∨ v = ['-'] →
      riftParse [⟨TokenType.operator, v, l, c⟩] =
        .mk .binaryOp v .null .null := by
  intro v l c h
  rcases h with rfl | rfl <;> rfl

/-- C10 witness: the concrete one-token stream `[Operator "+"]`. -/
theorem C10_witness :
    ((['+'] : List Char) = ['+'] ∨ (['+'] : List Char) = ['-']) ∧
    riftParse [⟨TokenType.operator, ['+'], 1, 1⟩] =
      .mk .binaryOp ['+'] .null .null :=
  ⟨Or.inl rfl, C10_theorem ['+'] 1 1 (Or.inl rfl)⟩

/-- C1 counterexample: the cited classification loop of
`rift_tokenize` takes the first matching state in rule order and
breaks — its rules carry no priority at all — so with the example
rules ordered `[("^[0-9]+$", Number), ("^.$", Unknown)]` the lexeme
`"5"` is classified `Number`, not `Unknown` as the claim states. -/
theorem C1_counterexample :
    classifyPoc [("^[0-9]+$".toList, TokenType.number),
                 ("^.$".toList, TokenType.unknown)] ['5'] =
      TokenType.number ∧
    TokenType.number ≠ TokenType.unknown := by
  exact ⟨rfl, by decide⟩

/-- C1 (amended): the classification loop of `rift_tokenize` selects
the earliest matching rule in the supplied rule order, ignoring
priority; the claimed highest-priority/earliest-on-tie selection
holds of the stage-bound classifier (`rift_stage0_process`) whenever
all rule priorities are nonnegative, and under that classifier the
example rules classify `"5"` as `Unknown` with priority `95`. -/
theorem C1_theorem :
    (∀ (states : List (List Char × TokenType)) (lex : List Char),
        classifyPoc states lex =
          (match states.find? (fun s => matchesPattern s.1 lex) with
           | some s => s.2
           | none => TokenType.unknown)) ∧
    (∀ (rules : List StageRule) (lex : List Char),
        (∀ r ∈ rules, (0 : Int) ≤ r.priority) →
        classifyStage rules lex = classifySpecSelect rules lex) ∧
    classifyStage c1ExampleRules ['5'] = (TokenType.unknown, 95) := by
  refine ⟨classifyPoc_eq_find, ?_, by decide⟩
  intro rules lex h
  have hl := classifyStageLoop_bestOf lex rules TokenType.unknown 0 (-1)
  simp only [classifyStage, classifySpecSelect, hl]
  cases hb : bestOf (rules.filter fun r => matchesPattern r.pattern lex) with
  | none => rfl
  | some b =>
      have hbr : b ∈ rules :=
        (List.mem_filter.mp (bestOf_mem _ b hb)).1
      have hppos : (0 : Int) ≤ b.priority := h b hbr
      have hgt : b.priority > (-1 : Int) := by omega
      simp [hgt]

/-- C1 witness: the stage-bound classifier agrees with the spec-side
selection on the example rules (whose priorities are nonnegative). -/
theorem C1_witness :
    (∀ r ∈ c1ExampleRules, (0 : Int) ≤ r.priority) ∧
    classifyStage c1ExampleRules ['5'] =
      classifySpecSelect c1ExampleRules ['5'] :=
  ⟨by decide, C1_theorem.2.1 c1ExampleRules ['5'] (by decide)⟩

/-- C4 counterexample: the input `"x \t y"` consists of the lexemes
`x` and `y` separated by whitespace, yet `rift_tokenize` (which
splits only on the space character) emits three tokens, the middle
one of Whitespace kind — the tab survives as its own token and
matches `^\s+$`. -/
theorem C4_counterexample :
    (riftTokenize ("x \t y".toList)).map RiftToken.type =
      [TokenType.identifier, TokenType.whitespace, TokenType.identifier] ∧
    TokenType.whitespace ∈ (riftTokenize ("x \t y".toList)).map RiftToken.type := by
  exact ⟨rfl, by decide⟩

/-- C4 (amended): for every input whose characters are spaces or
non-whitespace (i.e. whose only whitespace is the ASCII space the
lexer splits on), `rift_tokenize` produces exactly one token per
non-empty space-separated lexeme, in left-to-right input order, and
no token of Whitespace kind. -/
theorem C4_theorem :
    ∀ cs : List Char, (∀ c ∈ cs, c = ' ' ∨ isWsChar c = false) →
      (riftTokenize cs).map RiftToken.value = strtokSplit cs ∧
      ∀ t ∈ riftTokenize cs, t.type ≠ TokenType.whitespace := by
  intro cs h
  have hch := strtokSplitAux_chunks cs [] h (by simp)
  have hg : ∀ w ∈ strtokSplit cs, w ≠ [] ∧ w.head? ≠ some ' ' := by
    intro w hw
    obtain ⟨hne, hnc⟩ := hch w hw
    refine ⟨hne, ?_⟩
    cases w with
    | nil => simp
    | cons a as =>
        have ha : isWsChar a = false := hnc a (List.mem_cons_self a as)
        intro hcon
        have : a = ' ' := by simpa using hcon
        subst this
        simp [isWsChar] at ha
  obtain ⟨h1, h2⟩ := tokenizeChunks_spec (strtokSplit cs) 0 hg
  refine ⟨h1, ?_⟩
  intro t ht
  rw [h2 t ht]
  have hv : t.value ∈ strtokSplit cs := by
    rw [← h1]
    exact List.mem_map_of_mem RiftToken.value ht
  obtain ⟨hne, hnc⟩ := hch t.value hv
  obtain ⟨a, as, hw⟩ : ∃ a as, t.value = a :: as := by
    cases hvv : t.value with
    | nil => exact absurd hvv hne
    | cons a as => exact ⟨a, as, rfl⟩
  have ha : isWsChar a = false := by
    refine hnc a ?_
    rw [hw]
    exact List.mem_cons_self a as
  rw [hw]
  exact classifyPoc_ne_whitespace _ (wsPattern_no_match a as ha)

/-- C4 witness: the demo input `"x + 2 * y"`, whose whitespace is
all spaces. -/
theorem C4_witness :
    (∀ c ∈ ("x + 2 * y".toList), c = ' ' ∨ isWsChar c = false) ∧
    ((riftTokenize ("x + 2 * y".toList)).map RiftToken.value =
        strtokSplit ("x + 2 * y".toList) ∧
      ∀ t ∈ riftTokenize ("x + 2 * y".toList),
        t.type ≠ TokenType.whitespace) :=
  ⟨by decide, C4_theorem ("x + 2 * y".toList) (by decide)⟩

/-- The two-entry store of the C5 counterexample: the same key
`"K"` added twice, first with value `"v1"`, then with `"v2"`. -/
def c5Gov : Governance :=
  { entries :=
      [ { pattern := "v1".toList, intention := "K".toList,
          sp_alignment := [] },
        { pattern := "v2".toList, intention := "K".toList,
          sp_alignment := [] } ] }

/-- C5 counterexample: with the key `"K"` added twice,
`rift_get_config_value` returns the value written first (`"v1"`),
not the value written last (`"v2"`) as the claim states. -/
theorem C5_counterexample :
    riftGetConfigValue c5Gov ("K".toList) = some ("v1".toList) ∧
    ("v1".toList : List Char) ≠ "v2".toList := by
  exact ⟨rfl, by decide⟩

/-- C5 (amended): lookup returns the value of the
earliest-added entry whose key matches (first-insert-wins): for any
store whose entries split as `pre ++ e :: post` where no entry of
`pre` carries the key and `e` does, lookup returns `e`'s value,
whatever `post` holds. -/
theorem C5_theorem :
    ∀ (post : List ConfigEntry) (e : ConfigEntry) (key : List Char),
      e.intention = key →
      ∀ pre : List ConfigEntry, (∀ x ∈ pre, x.intention ≠ key) →
        riftGetConfigValue ⟨pre ++ e :: post⟩ key = some e.pattern := by
  intro post e key he pre
  induction pre with
  | nil =>
      intro _
      simp [riftGetConfigValue, riftGetConfigValue.go, he]
  | cons x xs ih =>
      intro hall
      have hx : x.intention ≠ key := hall x (List.mem_cons_self x xs)
      have hxs : ∀ y ∈ xs, y.intention ≠ key :=
        fun y hy => hall y (List.mem_cons_of_mem x hy)
      have ihx := ih hxs
      simp only [riftGetConfigValue, riftGetConfigValue.go, List.cons_append,
        hx, if_false] at ihx ⊢
      simpa [riftGetConfigValue, riftGetConfigValue.go] using ihx

/-- C5 witness: a store `[(J ↦ w), (K ↦ v)]` queried at `K`. -/
theorem C5_witness :
    (ConfigEntry.intention ⟨"v".toList, "K".toList, []⟩ = "K".toList) ∧
    (∀ x ∈ [(⟨"w".toList, "J".toList, []⟩ : ConfigEntry)],
        ConfigEntry.intention x ≠ "K".toList) ∧
    riftGetConfigValue
        ⟨[⟨"w".toList, "J".toList, []⟩] ++
          (⟨"v".toList, "K".toList, []⟩ : ConfigEntry) :: []⟩
        ("K".toList) =
      some (ConfigEntry.pattern ⟨"v".toList, "K".toList, []⟩) :=
  ⟨rfl, by decide,
   C5_theorem [] ⟨"v".toList, "K".toList, []⟩ ("K".toList) rfl
     [⟨"w".toList, "J".toList, []⟩] (by decide)⟩

/-- Does the pattern carry both a leading `^` and a trailing `$`
anchor (after parsing)? -/
def anchoredBoth (p : List Char) : Bool :=
  match parseRegexAnchored p with
  | some (true, _, true) => true
  | _ => false

/-- C6 counterexample: the matcher of `matches_pattern` is `regexec`
substring search — the unanchored pattern `"abc"` does match the
lexeme `"xabcy"`, although it matches only a proper substring of it
(the fully anchored form `"^abc$"` does not match). -/
theorem C6_counterexample :
    matchesPattern ("abc".toList) ("xabcy".toList) = true ∧
    matchesPattern ("^abc$".toList) ("xabcy".toList) = false := by
  exact ⟨rfl, rfl⟩

/-- C6 (amended): pattern matching in classification is substring
search, not inherently anchored; a rule matches only the entire
lexeme exactly when its pattern carries both explicit anchors
`^...$`, in which case the match is the full-string match of the
pattern's core — and all four configured tokenizer patterns are
anchored on both sides. -/
theorem C6_theorem :
    (∀ (p : List Char) (r : Regex) (text : List Char),
        parseRegexAnchored p = some (true, r, true) →
        matchesPattern p text = fullMatch r text) ∧
    anchoredBoth ("^[a-zA-Z_]\\w*$".toList) = true ∧
    anchoredBoth ("^\\d+$".toList) = true ∧
    anchoredBoth ("^[+\\-*/]$".toList) = true ∧
    anchoredBoth ("^\\s+$".toList) = true := by
  refine ⟨?_, rfl, rfl, rfl, rfl⟩
  intro p r text hp
  simp [matchesPattern, hp]

/-- C6 witness: the anchored pattern `"^a$"` on the text `"ba"`. -/
theorem C6_witness :
    parseRegexAnchored ("^a$".toList) =
      some (true, Regex.seq Regex.eps (Regex.chr 'a'), true) ∧
    matchesPattern ("^a$".toList) ['b', 'a'] =
      fullMatch (Regex.seq Regex.eps (Regex.chr 'a')) ['b', 'a'] :=
  ⟨rfl, C6_theorem.1 ("^a$".toList) (Regex.seq Regex.eps (Regex.chr 'a'))
    ['b', 'a'] rfl⟩

/-- C7 counterexample: the input `"\t"` contains only whitespace
characters, yet `rift_tokenize` (which splits only on the space
character) returns a non-empty stream holding one Whitespace-kind
token. -/
theorem C7_counterexample :
    (∀ c ∈ ['\t'], isWsChar c = true) ∧
    riftTokenize ['\t'] ≠ [] ∧
    (riftTokenize ['\t']).map RiftToken.type = [TokenType.whitespace] := by
  exact ⟨by decide, by decide, rfl⟩

/-- C7 (amended): for every input containing only space characters,
`rift_tokenize` returns an empty stream (no error, no crash), and
`rift_parse` on that empty stream returns the `NULL` root — an
explicitly representable empty result. -/
theorem C7_theorem :
    ∀ cs : List Char, (∀ c ∈ cs, c = ' ') →
      riftTokenize cs = [] ∧
      riftParse (riftTokenize cs) = AstNode.null := by
  intro cs h
  have hsplit : strtokSplit cs = [] := by
    unfold strtokSplit
    rw [strtokSplitAux_all_space cs [] h]
    rfl
  have htok : riftTokenize cs = [] := by
    unfold riftTokenize
    rw [hsplit]
    rfl
  exact ⟨htok, by rw [htok]; rfl⟩

/-- C7 witness: the all-space input `"  "`. -/
theorem C7_witness :
    (∀ c ∈ [' ', ' '], c = ' ') ∧
    (riftTokenize [' ', ' '] = [] ∧
      riftParse (riftTokenize [' ', ' ']) = AstNode.null) :=
  ⟨by decide, C7_theorem [' ', ' '] (by decide)⟩

end RiftSim
